import Mathlib

/-
  Verification of the CSV-driven MCQ quiz application (src/App.js).

  The development shallowly embeds the core logic of the program:
  * the line tokenizer `parseLine` (the regex scanner over one CSV line),
  * the CSV importer `parseCSV` with its header mapper and record builder,
  * the answer checker `checkAnswer`,
  * the score computation `calculateScore`,
  * the session/state handlers (`startPractice`, Previous/Next buttons,
    jump-to-index, `handleImport`).

  Strings are modelled as `List Char` inside the tokenizer (with `String`
  wrappers at the boundaries); JavaScript objects keyed by numeric indices
  are modelled as association lists sorted by key, which matches the
  enumeration order `Object.entries` guarantees for integer-like keys.
-/

namespace GateMcq

/-! ### Character-level helpers -/

/-- Whitespace recognised by trimming (space, tab, CR, LF). -/
def isWs (c : Char) : Bool :=
  c == ' ' || c == '\t' || c == '\r' || c == '\n'

/-- JavaScript `String.prototype.trim` on a list of characters. -/
def trimL (cs : List Char) : List Char :=
  ((cs.dropWhile isWs).reverse.dropWhile isWs).reverse

/-- JavaScript `.replace(/\x22\x22/g, ...)` : every doubled quote becomes a
single quote, scanning left to right without overlap. -/
def unescapeQuotes : List Char → List Char
  | '"' :: '"' :: rest => '"' :: unescapeQuotes rest
  | c :: rest => c :: unescapeQuotes rest
  | [] => []

/-! ### The quoted-field matcher

The source tokenizes a line with the global regex
`(?:\x22([^\x22]*(?:\x22\x22[^\x22]*)*)\x22)|([^,]+)`.  A quoted
field is an opening quote,
an interior in which every quote is part of an adjacent doubled pair, and
a closing quote; the greedy engine takes the longest such prefix. -/

/-- Interior language of a quoted field: quotes occur only as adjacent
doubled pairs (regex `[^\x22]*(\x22\x22[^\x22]*)*`). -/
def interiorOk : List Char → Bool
  | '"' :: '"' :: rest => interiorOk rest
  | '"' :: _ => false
  | _ :: rest => interiorOk rest
  | [] => true

/-- The predicate `validQuoted cs j` holds when the first `j` characters of `cs` form a
complete quoted field. -/
def validQuoted (cs : List Char) (j : Nat) : Bool :=
  decide (2 ≤ j) && decide (j ≤ cs.length) &&
    (cs.head? == some '"') && ((cs.take j).getLast? == some '"') &&
    interiorOk (((cs.take j).drop 1).dropLast)

/-- Length of the (greedy, hence longest) quoted-field match at the start
of `cs`, if any. -/
def quotedEnd (cs : List Char) : Option Nat :=
  (List.range (cs.length + 1)).reverse.find? (validQuoted cs)

theorem quotedEnd_ge_two {cs : List Char} {j : Nat}
    (h : quotedEnd cs = some j) : 2 ≤ j := by
  have h2 := List.find?_some h
  simp only [validQuoted, Bool.and_eq_true, decide_eq_true_eq] at h2
  exact h2.1.1.1.1

theorem length_dropWhile_le (p : Char → Bool) (l : List Char) :
    (l.dropWhile p).length ≤ l.length := by
  induction l with
  | nil => simp
  | cons c rest ih =>
    by_cases h : p c
    · rw [List.dropWhile_cons_of_pos h]
      exact Nat.le_succ_of_le ih
    · rw [List.dropWhile_cons_of_neg h]

/-! ### The line tokenizer -/

/-- One pass of the global regex over the line, with explicit fuel (the
fuel is always instantiated with the length of the line, which bounds the
number of matching steps): at each position, a quoted field is matched if
possible, otherwise a maximal comma-free run, otherwise the character (a
comma) is skipped.  Produces the raw matches. -/
def tokenizeFuel : Nat → List Char → List (List Char)
  | 0, _ => []
  | _, [] => []
  | fuel + 1, c :: rest =>
    if c = '"' ∧ (quotedEnd (c :: rest)).isSome then
      (c :: rest).take ((quotedEnd (c :: rest)).getD 0) ::
        tokenizeFuel fuel ((c :: rest).drop ((quotedEnd (c :: rest)).getD 0))
    else if c = ',' then
      tokenizeFuel fuel rest
    else
      (c :: rest).takeWhile (fun x => x != ',') ::
        tokenizeFuel fuel ((c :: rest).dropWhile (fun x => x != ','))

/-- The tokenizing scan of the source regex. -/
def tokenize (cs : List Char) : List (List Char) :=
  tokenizeFuel cs.length cs

theorem tokenizeFuel_congrAux :
    ∀ (n : Nat), ∀ cs : List Char, cs.length ≤ n →
      ∀ f1 f2 : Nat, cs.length ≤ f1 → cs.length ≤ f2 →
        tokenizeFuel f1 cs = tokenizeFuel f2 cs := by
  intro n
  induction n using Nat.strong_induction_on with
  | _ n ih =>
    intro cs hcs f1 f2 h1 h2
    cases cs with
    | nil => cases f1 <;> cases f2 <;> rfl
    | cons c rest =>
      have hn2 : rest.length + 1 ≤ n := by simpa using hcs
      have hp1 : rest.length + 1 ≤ f1 := by simpa using h1
      have hp2 : rest.length + 1 ≤ f2 := by simpa using h2
      obtain ⟨g1, rfl⟩ : ∃ g, f1 = g + 1 := ⟨f1 - 1, by omega⟩
      obtain ⟨g2, rfl⟩ : ∃ g, f2 = g + 1 := ⟨f2 - 1, by omega⟩
      simp only [tokenizeFuel]
      by_cases hb1 : c = '"' ∧ (quotedEnd (c :: rest)).isSome
      · rw [if_pos hb1, if_pos hb1]
        obtain ⟨j, hj⟩ := Option.isSome_iff_exists.mp hb1.2
        have hj2 := quotedEnd_ge_two hj
        have hdl : ((c :: rest).drop ((quotedEnd (c :: rest)).getD 0)).length
            ≤ rest.length - 1 := by
          simp only [hj, Option.getD_some, List.length_drop, List.length_cons]
          omega
        rw [ih rest.length (by omega) _ (by omega) g1 g2 (by omega) (by omega)]
      · rw [if_neg hb1, if_neg hb1]
        by_cases hc : c = ','
        · rw [if_pos hc, if_pos hc]
          exact ih rest.length (by omega) rest (Nat.le_refl _) g1 g2
            (by omega) (by omega)
        · rw [if_neg hc, if_neg hc]
          have hx : (c != ',') = true := by simpa using hc
          have hlen := length_dropWhile_le (fun x => x != ',') rest
          have hdl : ((c :: rest).dropWhile (fun x => x != ',')).length
              ≤ rest.length := by
            simp only [List.dropWhile_cons, hx, if_true]
            omega
          rw [ih rest.length (by omega) _ (by omega) g1 g2 (by omega) (by omega)]

/-- Post-processing of a single raw match, as in the source `.map`:
a match that starts and ends with a quote is stripped, unescaped, and
trimmed; other matches are trimmed.  (A one-character match consisting of
a single quote is returned as-is: `substring(1, 0)` swaps its arguments in
JavaScript and yields the quote character again.) -/
def processTok (m : List Char) : List Char :=
  if m.head? = some '"' ∧ m.getLast? = some '"' then
    if m.length = 1 then m
    else trimL (unescapeQuotes ((m.drop 1).dropLast))
  else trimL m

/-- The `parseLine` helper of the source, on character lists. -/
def parseLineL (line : List Char) : List (List Char) :=
  (tokenize line).map processTok

/-- The `parseLine` helper of the source, on strings. -/
def parseLine (line : String) : List String :=
  (parseLineL line.toList).map List.asString

/-! ### Naive splitting (used for the header row and line breaking) -/

/-- JavaScript split on a comma: every comma is a delimiter, empty fields are
kept, and the empty string splits to one empty field. -/
def splitComma : List Char → List (List Char)
  | [] => [[]]
  | c :: rest =>
    if c = ',' then [] :: splitComma rest
    else (c :: (splitComma rest).headD []) :: (splitComma rest).tail

/-- JavaScript `split(/\r?\n/)`: a LF, optionally preceded by a CR, ends a
line; a lone CR is ordinary content. -/
def splitLines : List Char → List (List Char)
  | [] => [[]]
  | '\r' :: '\n' :: rest => [] :: splitLines rest
  | '\n' :: rest => [] :: splitLines rest
  | c :: rest => (c :: (splitLines rest).headD []) :: (splitLines rest).tail

theorem splitComma_ne_nil (cs : List Char) : splitComma cs ≠ [] := by
  cases cs with
  | nil => simp [splitComma]
  | cons c rest =>
    by_cases h : c = ','
    · simp [splitComma, h]
    · simp [splitComma, h]

/-! ### Header mapping -/

/-- Canonical roles a header cell can be classified into. -/
inductive Role where
  | option1
  | option2
  | option3
  | option4
  | q
  | correct
  | explanation
deriving DecidableEq, Repr

/-- Normalisation of a header cell: trim, lower-case, strip every
character that is not a lower-case letter or digit. -/
def normalizeHeader (cs : List Char) : List Char :=
  ((trimL cs).map Char.toLower).filter
    (fun c => decide (('a' ≤ c ∧ c ≤ 'z') ∨ ('0' ≤ c ∧ c ≤ '9')))

/-- Substring containment on normalised header text. -/
def containsStr (h : List Char) (needle : String) : Bool :=
  decide (needle.toList <:+: h)

/-- The `mapHeader` classifier of the source: ordered substring checks,
first match wins. -/
def mapHeader (header : List Char) : Option Role :=
  let h := normalizeHeader header
  if containsStr h "optiona" || containsStr h "option1" then some Role.option1
  else if containsStr h "optionb" || containsStr h "option2" then some Role.option2
  else if containsStr h "optionc" || containsStr h "option3" then some Role.option3
  else if containsStr h "optiond" || containsStr h "option4" then some Role.option4
  else if containsStr h "question" then some Role.q
  else if containsStr h "correctanswer" || containsStr h "correct" then some Role.correct
  else if containsStr h "explanation" then some Role.explanation
  else none

/-! ### Question records and the record builder -/

/-- A parsed multiple-choice question record. -/
structure Question where
  q : String
  options : List String
  correct : String
  explanation : Option String
deriving DecidableEq, Repr

/-- Accumulator for one data line: the partially assembled object of the
source loop (`question.q`, collected options, `question.correct`,
`question.explanation`), each field overwritten on reassignment. -/
structure RecordBuilder where
  q : Option String := none
  options : List String := []
  correct : Option String := none
  explanation : Option String := none
deriving DecidableEq, Repr

/-- Is a mapped header role one of the four option roles? -/
def isOptionRole : Option Role → Bool
  | some Role.option1 => true
  | some Role.option2 => true
  | some Role.option3 => true
  | some Role.option4 => true
  | _ => false

/-- Processing of one (role, field value) pair of the source loop body. -/
def buildStep (b : RecordBuilder) (p : Option Role × List Char) : RecordBuilder :=
  match p.1 with
  | some Role.q => { b with q := some p.2.asString }
  | some Role.option1 => { b with options := b.options ++ [p.2.asString] }
  | some Role.option2 => { b with options := b.options ++ [p.2.asString] }
  | some Role.option3 => { b with options := b.options ++ [p.2.asString] }
  | some Role.option4 => { b with options := b.options ++ [p.2.asString] }
  | some Role.correct => { b with correct := some p.2.asString }
  | some Role.explanation => { b with explanation := some p.2.asString }
  | none => b

/-- One data line of the import: `none` when the line is blank, when the
tokenized field count differs from the header field count, or when the
assembled record lacks question text, at least two options, or a truthy
(non-empty) correct answer. -/
def buildRecord (headerMap : List (Option Role)) (headerCount : Nat)
    (line : List Char) : Option Question :=
  if trimL line = [] then none
  else
    let values := parseLineL line
    if values.length = headerCount then
      let b := (headerMap.zip values).foldl buildStep {}
      if b.q.isSome ∧ 2 ≤ b.options.length ∧ b.correct.getD "" ≠ "" then
        some ⟨b.q.getD "", b.options, b.correct.getD "", b.explanation⟩
      else none
    else none

/-- The data-line loop of `parseCSV`: accepted records are appended in
input order, rejected lines are skipped and the loop continues. -/
def parseCSVLoop (headerMap : List (Option Role)) (headerCount : Nat) :
    List (List Char) → List Question
  | [] => []
  | line :: rest =>
    match buildRecord headerMap headerCount line with
    | some r => r :: parseCSVLoop headerMap headerCount rest
    | none => parseCSVLoop headerMap headerCount rest

/-- The `parseCSV` function of the source. -/
def parseCSV (csvText : String) : List Question :=
  if csvText = "" then []
  else
    match splitLines (trimL csvText.toList) with
    | [] => []
    | headerLine :: dataLines =>
      let rawHeaders := splitComma headerLine
      parseCSVLoop (rawHeaders.map mapHeader) rawHeaders.length dataLines

/-! ### Answer checking -/

/-- JavaScript `trim` on strings. -/
def jsTrim (s : String) : String :=
  (trimL s.toList).asString

/-- JavaScript `toUpperCase` on strings (ASCII case mapping). -/
def jsToUpper (s : String) : String :=
  (s.toList.map Char.toUpper).asString

/-- JavaScript `toLowerCase` on strings (ASCII case mapping). -/
def jsToLower (s : String) : String :=
  (s.toList.map Char.toLower).asString

/-- The `checkAnswer` function of the source: exact match against the
stored correct answer, then letter-label resolution (`A`..`D` index into
the options, after trimming and upper-casing). -/
def checkAnswer (selectedOption : String) (question : Question) : Bool :=
  if selectedOption == question.correct then true
  else
    let correctChar := jsToUpper (jsTrim question.correct)
    let idx := List.indexOf correctChar ["A", "B", "C", "D"]
    if idx < 4 then
      match question.options.get? idx with
      | some opt => opt == selectedOption
      | none => false
    else false

/-! ### Session state -/

/-- One entry of the `userResponses` object.  An absent `selectedOption`
or `isCorrect` key of the JavaScript object is modelled as `none` /
`false`, which is how the program reads them back. -/
structure ResponseEntry where
  selectedOption : Option String
  isCorrect : Bool
  isExplanationVisible : Bool
deriving DecidableEq, Repr

/-- The `userResponses` object: integer-keyed entries, kept sorted by key
as `Object.entries` enumerates integer-like keys in ascending order. -/
abbrev RespMap := List (Nat × ResponseEntry)

/-- Reading `userResponses[k]`. -/
def getResp : RespMap → Nat → Option ResponseEntry
  | [], _ => none
  | (k2, v) :: rest, k => if k = k2 then some v else getResp rest k

/-- Writing `userResponses[k]` through an updater (the spread-update in the
source), keeping the numeric-key ordering of JavaScript objects. -/
def setResp (m : RespMap) (k : Nat) (f : Option ResponseEntry → ResponseEntry) :
    RespMap :=
  match m with
  | [] => [(k, f none)]
  | (k2, v) :: rest =>
    if k = k2 then (k, f (some v)) :: rest
    else if k < k2 then (k, f none) :: (k2, v) :: rest
    else (k2, v) :: setResp rest k f

/-- Keys of the response map are strictly ascending (the `Object.entries`
invariant for integer-like keys). -/
def keysSorted (m : RespMap) : Prop :=
  List.Pairwise (fun p q => p.1 < q.1) m

instance (m : RespMap) : Decidable (keysSorted m) := by
  unfold keysSorted
  infer_instance

/-- A question carried by a live session: the topic question spread
together with the per-session id `i-now`. -/
structure SessionQuestion where
  question : Question
  id : String
deriving DecidableEq, Repr

instance : Inhabited SessionQuestion :=
  ⟨⟨⟨"", [], "", none⟩, ""⟩⟩

/-- A stored topic. -/
structure Topic where
  id : String
  topicName : String
  questions : List Question
deriving DecidableEq, Repr

/-- The three screens of the app state machine. -/
inductive QuizState where
  | TOPIC_SELECT
  | PRACTICE
  | SUMMARY
deriving DecidableEq, Repr

/-- The modelled component state (the `useState` hooks the core logic
reads and writes). -/
structure AppState where
  topics : List Topic
  quizState : QuizState
  csvContent : String
  newTopicName : String
  fileName : Option String
  currentQuestions : List SessionQuestion
  currentQuestionIndex : Nat
  userResponses : RespMap
  isDrawerOpen : Bool
  message : String
deriving DecidableEq, Repr

/-! ### Session operations -/

/-- The handler `startPractice(questionsList)`: rejects a missing or empty list with a
diagnostic message and no other change; otherwise tags every question with
a per-session id, resets the index, clears the responses and enters
PRACTICE.  `now` stands for the `Date.now()` timestamp. -/
def startPractice (questionsList : Option (List Question)) (now : Nat)
    (s : AppState) : AppState :=
  match questionsList with
  | none => { s with message := "No questions to practice." }
  | some [] => { s with message := "No questions to practice." }
  | some qs =>
    let withIds := qs.enum.map
      (fun p => SessionQuestion.mk p.2 (toString p.1 ++ "-" ++ toString now))
    { s with currentQuestions := withIds, currentQuestionIndex := 0,
             userResponses := [], quizState := QuizState.PRACTICE,
             isDrawerOpen := false }

/-- The Previous button handler: at index 0 it returns to topic selection;
otherwise it hides the explanation of the destination index and moves
there. -/
def handlePrevious (s : AppState) : AppState :=
  if 0 < s.currentQuestionIndex then
    let newIndex := s.currentQuestionIndex - 1
    { s with
      userResponses := setResp s.userResponses newIndex
        (fun old => { old.getD ⟨none, false, false⟩ with isExplanationVisible := false }),
      currentQuestionIndex := newIndex }
  else
    { s with quizState := QuizState.TOPIC_SELECT }

/-- The Next button handler: at the last index it finalizes to SUMMARY;
otherwise it hides the explanation of the destination index and moves
there. -/
def handleNext (s : AppState) : AppState :=
  if s.currentQuestionIndex + 1 = s.currentQuestions.length then
    { s with quizState := QuizState.SUMMARY }
  else
    let newIndex := s.currentQuestionIndex + 1
    { s with
      userResponses := setResp s.userResponses newIndex
        (fun old => { old.getD ⟨none, false, false⟩ with isExplanationVisible := false }),
      currentQuestionIndex := newIndex }

/-- The jump-to-index handler of the drawer review list: only moves the
index and closes the drawer. -/
def handleJumpTo (s : AppState) (i : Nat) : AppState :=
  { s with currentQuestionIndex := i, isDrawerOpen := false }

/-! ### Scoring -/

/-- Truthiness of `r.selectedOption` in JavaScript: present and non-empty. -/
def respAttempted (r : ResponseEntry) : Bool :=
  match r.selectedOption with
  | some sel => sel ≠ ""
  | none => false

/-- JavaScript `Math.round` on an exact rational: round half away from zero upward,
i.e. the floor of `x + 1/2`. -/
def jsRound (x : ℚ) : ℤ :=
  ⌊x + 1 / 2⌋

/-- Result record of `calculateScore`. -/
structure ScoreResult where
  finalScore : Nat
  attempted : Nat
  total : Nat
  incorrects : List SessionQuestion
  unanswered : Nat
  accuracy : ℤ
deriving DecidableEq, Repr

/-- One `forEach` step of `calculateScore` over an entry of the response
map: accumulates (attempted, corrects, incorrects). -/
def scoreStep (qs : List SessionQuestion) (acc : Nat × Nat × List SessionQuestion)
    (p : Nat × ResponseEntry) : Nat × Nat × List SessionQuestion :=
  if respAttempted p.2 then
    if p.2.isCorrect then (acc.1 + 1, acc.2.1 + 1, acc.2.2)
    else
      match qs.get? p.1 with
      | some orig => (acc.1 + 1, acc.2.1, acc.2.2 ++ [orig])
      | none => (acc.1 + 1, acc.2.1, acc.2.2)
  else acc

/-- The `calculateScore` function of the source, folding over the entries
of the response map. -/
def calculateScore (qs : List SessionQuestion) (rs : RespMap) : ScoreResult :=
  let folded := rs.foldl (scoreStep qs) (0, 0, [])
  let attempted := folded.1
  let corrects := folded.2.1
  let incorrects := folded.2.2
  let total := qs.length
  let unanswered := total - attempted
  let accuracy : ℤ :=
    if 0 < attempted then jsRound ((corrects : ℚ) / (attempted : ℚ) * 100) else 0
  ⟨corrects, attempted, total, incorrects, unanswered, accuracy⟩

/-! ### Topic import -/

/-- The `handleImport` handler: empty content, empty topic name, zero
parsed records, and a case-insensitive duplicate topic name each fail with
a distinct message and no other state change; otherwise the new topic is
prepended and the input fields are cleared.  `now` stands for
`Date.now()`. -/
def handleImport (now : Nat) (s : AppState) : AppState :=
  if jsTrim s.csvContent = "" then
    { s with message := "Please select a file OR paste content." }
  else if jsTrim s.newTopicName = "" then
    { s with message := "Enter topic name." }
  else
    let parsed := parseCSV s.csvContent
    if parsed.length = 0 then
      { s with message := "No valid questions parsed from content." }
    else if s.topics.any
        (fun t => jsToLower t.topicName == jsToLower (jsTrim s.newTopicName)) then
      { s with message := "Topic with this name already exists." }
    else
      let newTopic : Topic := ⟨"topic-" ++ toString now, jsTrim s.newTopicName, parsed⟩
      { s with topics := newTopic :: s.topics, csvContent := "",
               newTopicName := "", fileName := none,
               message := "Saved " ++ newTopic.topicName ++ " ("
                 ++ toString parsed.length ++ " questions)" }

/-! ## Claim theorems -/

/-! ### C1: answer-correctness resolution -/

/-- Spec-side letter table: `A`..`D` name the zero-based option indices
0..3. -/
def letterIndex (c : String) : Option Nat :=
  if c = "A" then some 0
  else if c = "B" then some 1
  else if c = "C" then some 2
  else if c = "D" then some 3
  else none

theorem indexOf_letters (c : String) :
    List.indexOf c ["A", "B", "C", "D"] = (letterIndex c).getD 4 := by
  unfold letterIndex
  split_ifs <;> simp_all [List.indexOf_cons, beq_iff_eq]

/-- The example record of the claim, with correct answer `B`. -/
def recLetterB : Question :=
  ⟨"capital", ["Paris", "Rome", "Berlin", "Madrid"], "B", none⟩

/-- The example record of the claim, with correct answer `Rome`. -/
def recLiteralRome : Question :=
  ⟨"capital", ["Paris", "Rome", "Berlin", "Madrid"], "Rome", none⟩

/-- C1: `checkAnswer` returns true iff the selected string equals the
stored correct answer exactly, or the correct answer (trimmed and
upper-cased) is one of the letters A–D and the option at the
corresponding zero-based index equals the selected string; on the example
record with options Paris/Rome/Berlin/Madrid and correct answer `B`,
exactly the option Rome is judged correct, and the same holds for correct
answer `Rome`. -/
theorem claim_C1_checkAnswer :
    (∀ (question : Question) (sel : String),
      checkAnswer sel question = true ↔
        (sel = question.correct ∨
          ∃ i, letterIndex (jsToUpper (jsTrim question.correct)) = some i ∧
            question.options.get? i = some sel))
    ∧ (∀ opt ∈ recLetterB.options,
        (checkAnswer opt recLetterB = true ↔ opt = "Rome"))
    ∧ (∀ opt ∈ recLiteralRome.options,
        (checkAnswer opt recLiteralRome = true ↔ opt = "Rome")) := by
  refine ⟨?_, by decide, by decide⟩
  intro question sel
  unfold checkAnswer
  by_cases hsel : sel = question.correct
  · simp [hsel]
  · have hbeq : (sel == question.correct) = false := by
      simp [hsel]
    rw [hbeq]
    simp only [Bool.false_eq_true, if_false, indexOf_letters]
    cases hli : letterIndex (jsToUpper (jsTrim question.correct)) with
    | none =>
      simp [hsel]
    | some i =>
      have hi : i < 4 := by
        unfold letterIndex at hli
        split_ifs at hli <;> simp only [Option.some.injEq] at hli <;> omega
      rw [Option.getD_some, if_pos hi]
      cases hget : question.options.get? i with
      | none =>
        simp only [hget, Bool.false_eq_true, false_iff]
        push_neg
        refine ⟨hsel, ?_⟩
        intro j hj
        injection hj with hj
        subst hj
        rw [hget]
        simp
      | some opt =>
        simp only [hget, beq_iff_eq]
        constructor
        · intro h
          right
          exact ⟨i, rfl, by rw [hget, h]⟩
        · intro h
          rcases h with h | ⟨j, hj1, hj2⟩
          · exact absurd h hsel
          · injection hj1 with hj1
            subst hj1
            rw [hget] at hj2
            injection hj2

/-- Witness for C1: the general equivalence applied at the example record
and the selected option `Rome`. -/
theorem claim_C1_checkAnswer_witness :
    checkAnswer "Rome" recLetterB = true ↔
      ("Rome" = recLetterB.correct ∨
        ∃ i, letterIndex (jsToUpper (jsTrim recLetterB.correct)) = some i ∧
          recLetterB.options.get? i = some "Rome") :=
  claim_C1_checkAnswer.1 recLetterB "Rome"

/-! ### Tokenizer step lemmas -/

theorem tokenizeFuel_eq (f : Nat) (cs : List Char) (h : cs.length ≤ f) :
    tokenizeFuel f cs = tokenize cs :=
  tokenizeFuel_congrAux f cs h f cs.length h (Nat.le_refl _)

theorem tokenize_nil : tokenize [] = [] := rfl

theorem tokenize_cons_comma (rest : List Char) :
    tokenize (',' :: rest) = tokenize rest := by
  unfold tokenize
  rw [List.length_cons]
  simp [tokenizeFuel]

theorem tokenize_cons_run {c : Char} {rest : List Char} (hq : c ≠ '"')
    (hc : c ≠ ',') :
    tokenize (c :: rest) =
      (c :: rest).takeWhile (fun x => x != ',') ::
        tokenize ((c :: rest).dropWhile (fun x => x != ',')) := by
  unfold tokenize
  rw [List.length_cons]
  simp only [tokenizeFuel]
  rw [if_neg (fun h => hq h.1), if_neg hc]
  congr 1
  have hx : (c != ',') = true := by simpa using hc
  have hlen := length_dropWhile_le (fun x => x != ',') rest
  apply tokenizeFuel_eq
  simp only [List.dropWhile_cons, hx, if_true]
  omega

theorem tokenize_cons_quoted {rest : List Char} {j : Nat}
    (h : quotedEnd ('"' :: rest) = some j) :
    tokenize ('"' :: rest) =
      ('"' :: rest).take j :: tokenize (('"' :: rest).drop j) := by
  unfold tokenize
  rw [List.length_cons]
  simp only [tokenizeFuel, h, Option.isSome_some, and_true, Option.getD_some,
    true_and, if_true]
  have hj2 := quotedEnd_ge_two h
  congr 1
  apply tokenizeFuel_eq
  simp only [List.length_drop, List.length_cons]
  omega

/-! ### C3: quoted-field unescaping -/

/-- A complete quoted field at the start of the line is matched whole:
the greedy match length is the full length of the field. -/
theorem quotedEnd_full (interior : List Char) (h : interiorOk interior = true) :
    quotedEnd ('"' :: (interior ++ ['"'])) = some (interior.length + 2) := by
  have hlen : ('"' :: (interior ++ ['"'])).length = interior.length + 2 := by
    simp
  have hval : validQuoted ('"' :: (interior ++ ['"'])) (interior.length + 2) = true := by
    unfold validQuoted
    have htake : ('"' :: (interior ++ ['"'])).take (interior.length + 2) =
        '"' :: (interior ++ ['"']) := by
      rw [← hlen, List.take_length]
    rw [htake]
    simp only [Bool.and_eq_true, decide_eq_true_eq]
    refine ⟨⟨⟨⟨by omega, by rw [hlen]⟩, by rfl⟩, ?_⟩, ?_⟩
    · have : ('"' :: (interior ++ ['"'])) = ('"' :: interior) ++ ['"'] := by simp
      rw [this, List.getLast?_concat]
      rfl
    · have hdrop : (('"' :: (interior ++ ['"'])).drop 1) = interior ++ ['"'] := by
        simp
      rw [hdrop, List.dropLast_concat]
      exact h
  unfold quotedEnd
  rw [hlen, List.range_succ, List.reverse_append, List.reverse_singleton,
    List.singleton_append, List.find?_cons, hval]

/-- C3: the tokenizer maps a double-quoted field to its content, with
every internal doubled quote unescaped to a single quote and whitespace
trimmed after unescaping; in particular the field consisting of
`a, \x22\x22b\x22\x22 c` between double quotes tokenizes to the single unescaped
string, the embedded comma not splitting the field. -/
theorem claim_C3_quoted_field :
    (∀ interior : List Char, interiorOk interior = true →
      parseLineL ('"' :: (interior ++ ['"'])) = [trimL (unescapeQuotes interior)])
    ∧ parseLine "\"a, \"\"b\"\" c\"" = ["a, \"b\" c"] := by
  constructor
  · intro interior h
    have hq := quotedEnd_full interior h
    have hlen : ('"' :: (interior ++ ['"'])).length = interior.length + 2 := by
      simp
    unfold parseLineL
    rw [tokenize_cons_quoted hq]
    rw [show ('"' :: (interior ++ ['"'])).take (interior.length + 2) =
        '"' :: (interior ++ ['"']) by rw [← hlen, List.take_length]]
    rw [show ('"' :: (interior ++ ['"'])).drop (interior.length + 2) =
        ([] : List Char) by rw [← hlen, List.drop_length]]
    rw [tokenize_nil]
    simp only [List.map_cons, List.map_nil]
    congr 1
    unfold processTok
    have hh : ('"' :: (interior ++ ['"'])).head? = some '"' := rfl
    have hl : ('"' :: (interior ++ ['"'])).getLast? = some '"' := by
      rw [show ('"' :: (interior ++ ['"'])) = ('"' :: interior) ++ ['"'] by simp,
        List.getLast?_concat]
    rw [if_pos ⟨hh, hl⟩, if_neg (by rw [hlen]; omega)]
    congr 1
    rw [show (('"' :: (interior ++ ['"'])).drop 1) = interior ++ ['"'] by simp,
      List.dropLast_concat]
  · decide

/-- Witness for C3: the general statement applied to the interior of the
example field. -/
theorem claim_C3_quoted_field_witness :
    parseLineL ('"' :: ("a, \"\"b\"\" c".toList ++ ['"'])) =
      [trimL (unescapeQuotes "a, \"\"b\"\" c".toList)] :=
  claim_C3_quoted_field.1 "a, \"\"b\"\" c".toList (by decide)

/-! ### Record-builder fold lemmas -/

theorem buildStep_q_isSome (b : RecordBuilder) (p : Option Role × List Char) :
    ((buildStep b p).q).isSome = (b.q.isSome || (p.1 == some Role.q)) := by
  rcases p with ⟨r, v⟩
  cases r with
  | none => simp [buildStep]
  | some role => cases role <;> simp [buildStep]

theorem buildStep_options_length (b : RecordBuilder) (p : Option Role × List Char) :
    (buildStep b p).options.length =
      b.options.length + (if isOptionRole p.1 then 1 else 0) := by
  rcases p with ⟨r, v⟩
  cases r with
  | none => simp [buildStep, isOptionRole]
  | some role => cases role <;> simp [buildStep, isOptionRole]

theorem buildStep_correct (b : RecordBuilder) (p : Option Role × List Char) :
    (buildStep b p).correct =
      if p.1 == some Role.correct then some p.2.asString else b.correct := by
  rcases p with ⟨r, v⟩
  cases r with
  | none => simp [buildStep]
  | some role => cases role <;> simp [buildStep]

theorem foldl_buildStep_q (l : List (Option Role × List Char)) (b : RecordBuilder) :
    ((l.foldl buildStep b).q).isSome =
      (b.q.isSome || l.any (fun p => p.1 == some Role.q)) := by
  induction l generalizing b with
  | nil => simp
  | cons p l ih =>
    simp only [List.foldl_cons, ih, buildStep_q_isSome, List.any_cons,
      Bool.or_assoc]

theorem foldl_buildStep_options (l : List (Option Role × List Char))
    (b : RecordBuilder) :
    (l.foldl buildStep b).options.length =
      b.options.length + l.countP (fun p => isOptionRole p.1) := by
  induction l generalizing b with
  | nil => simp
  | cons p l ih =>
    simp only [List.foldl_cons, ih, buildStep_options_length, List.countP_cons]
    split_ifs with h <;> omega

theorem foldl_buildStep_correct (l : List (Option Role × List Char))
    (b : RecordBuilder) :
    (l.foldl buildStep b).correct =
      (match l.reverse.find? (fun p => p.1 == some Role.correct) with
       | some p => some p.2.asString
       | none => b.correct) := by
  induction l generalizing b with
  | nil => simp
  | cons p l ih =>
    rw [List.foldl_cons, ih, List.reverse_cons, List.find?_append]
    cases hf : l.reverse.find? (fun p => p.1 == some Role.correct) with
    | some u => simp [Option.or]
    | none =>
      simp only [Option.or, List.find?_singleton]
      rw [buildStep_correct]
      by_cases hp : (p.1 == some Role.correct) = true
      · simp [hp]
      · simp only [Bool.not_eq_true] at hp
        simp [hp]

/-! ### C2: record acceptance -/

/-- C2: a data line whose tokenized field count equals the header count is
assembled and accepted exactly when a question-text field is present, at
least two option fields were collected, and the (last) correct-answer
value is non-empty; an accepted record is appended to the result list and
a rejected line is skipped while the loop continues. -/
theorem claim_C2_record_acceptance :
    (∀ (headerMap : List (Option Role)) (hc : Nat) (line : List Char),
      trimL line ≠ [] → (parseLineL line).length = hc →
      ((∃ r, buildRecord headerMap hc line = some r) ↔
        ((headerMap.zip (parseLineL line)).any
            (fun p => p.1 == some Role.q) = true ∧
          2 ≤ (headerMap.zip (parseLineL line)).countP
            (fun p => isOptionRole p.1) ∧
          ∃ u, (headerMap.zip (parseLineL line)).reverse.find?
              (fun p => p.1 == some Role.correct) = some u ∧
            u.2.asString ≠ "")))
    ∧ (∀ headerMap hc line r rest, buildRecord headerMap hc line = some r →
        parseCSVLoop headerMap hc (line :: rest) =
          r :: parseCSVLoop headerMap hc rest)
    ∧ (∀ headerMap hc line rest, buildRecord headerMap hc line = none →
        parseCSVLoop headerMap hc (line :: rest) =
          parseCSVLoop headerMap hc rest) := by
  refine ⟨?_, ?_, ?_⟩
  · intro headerMap hc line hblank hcount
    unfold buildRecord
    rw [if_neg hblank, if_pos hcount]
    have hq := foldl_buildStep_q (headerMap.zip (parseLineL line)) {}
    have hop := foldl_buildStep_options (headerMap.zip (parseLineL line)) {}
    have hco := foldl_buildStep_correct (headerMap.zip (parseLineL line)) {}
    set b := (headerMap.zip (parseLineL line)).foldl buildStep {} with hb
    simp only [Option.isSome_none, Bool.false_or] at hq
    simp only [List.length_nil, Nat.zero_add] at hop
    have hmain : (∃ r,
        (if b.q.isSome ∧ 2 ≤ b.options.length ∧ b.correct.getD "" ≠ "" then
          some (Question.mk (b.q.getD "") b.options (b.correct.getD "") b.explanation)
        else none) = some r) ↔
        (b.q.isSome ∧ 2 ≤ b.options.length ∧ b.correct.getD "" ≠ "") := by
      constructor
      · rintro ⟨r, hr⟩
        by_cases hcond : b.q.isSome ∧ 2 ≤ b.options.length ∧ b.correct.getD "" ≠ ""
        · exact hcond
        · rw [if_neg hcond] at hr
          cases hr
      · intro hcond
        exact ⟨_, if_pos hcond⟩
    rw [hmain, hq, hop]
    have hlast : (b.correct.getD "" ≠ "") ↔
        (∃ u, (headerMap.zip (parseLineL line)).reverse.find?
            (fun p => p.1 == some Role.correct) = some u ∧
          u.2.asString ≠ "") := by
      cases hfind : (headerMap.zip (parseLineL line)).reverse.find?
          (fun p => p.1 == some Role.correct) with
      | none =>
        rw [hfind] at hco
        simp [hco]
      | some u =>
        rw [hfind] at hco
        rw [hco]
        simp only [Option.getD_some, ne_eq]
        constructor
        · intro h
          exact ⟨u, rfl, h⟩
        · rintro ⟨u2, hu2, hne⟩
          injection hu2 with hu2
          subst hu2
          exact hne
    rw [hlast]
  · intro headerMap hc line r rest h
    simp [parseCSVLoop, h]
  · intro headerMap hc line rest h
    simp [parseCSVLoop, h]

/-- Witness for C2: the acceptance equivalence at a concrete header map
and data line. -/
theorem claim_C2_record_acceptance_witness :
    (∃ r, buildRecord [some Role.q, some Role.option1, some Role.option2,
        some Role.correct] 4 "What,Paris,Rome,B".toList = some r) ↔
      (([some Role.q, some Role.option1, some Role.option2,
          some Role.correct].zip (parseLineL "What,Paris,Rome,B".toList)).any
          (fun p => p.1 == some Role.q) = true ∧
        2 ≤ ([some Role.q, some Role.option1, some Role.option2,
          some Role.correct].zip (parseLineL "What,Paris,Rome,B".toList)).countP
          (fun p => isOptionRole p.1) ∧
        ∃ u, ([some Role.q, some Role.option1, some Role.option2,
            some Role.correct].zip
            (parseLineL "What,Paris,Rome,B".toList)).reverse.find?
            (fun p => p.1 == some Role.correct) = some u ∧
          u.2.asString ≠ "") :=
  claim_C2_record_acceptance.1 _ 4 _ (by decide) (by decide)

/-! ### C4: column-count mismatch -/

theorem buildRecord_count_mismatch (hm : List (Option Role)) (hc : Nat)
    (line : List Char) (hb : trimL line ≠ [])
    (hcnt : (parseLineL line).length ≠ hc) :
    buildRecord hm hc line = none := by
  unfold buildRecord
  rw [if_neg hb, if_neg hcnt]

theorem parseCSVLoop_append_skip (hm : List (Option Role)) (hc : Nat)
    (line : List Char) (hb : trimL line ≠ [])
    (hcnt : (parseLineL line).length ≠ hc) :
    ∀ pre post, parseCSVLoop hm hc (pre ++ line :: post) =
      parseCSVLoop hm hc (pre ++ post) := by
  intro pre
  induction pre with
  | nil =>
    intro post
    simp [parseCSVLoop, buildRecord_count_mismatch hm hc line hb hcnt]
  | cons l pre ih =>
    intro post
    cases hbr : buildRecord hm hc l with
    | some r => simp [List.cons_append, parseCSVLoop, hbr, ih post]
    | none => simp [List.cons_append, parseCSVLoop, hbr, ih post]

theorem parseCSVLoop_length_le (hm : List (Option Role)) (hc : Nat) :
    ∀ lines, (parseCSVLoop hm hc lines).length ≤ lines.length := by
  intro lines
  induction lines with
  | nil => simp [parseCSVLoop]
  | cons l rest ih =>
    cases hbr : buildRecord hm hc l with
    | some r =>
      simp only [parseCSVLoop, hbr, List.length_cons]
      omega
    | none =>
      simp only [parseCSVLoop, hbr, List.length_cons]
      omega

/-- C4: a non-empty data line whose tokenized field count differs from the
header field count is skipped (it produces no record), the import
continues over the remaining lines, and a batch containing such a line
yields at most one fewer accepted records than it has data lines. -/
theorem claim_C4_column_mismatch :
    (∀ (hm : List (Option Role)) (hc : Nat) (line : List Char),
      trimL line ≠ [] → (parseLineL line).length ≠ hc →
      buildRecord hm hc line = none)
    ∧ (∀ (hm : List (Option Role)) (hc : Nat) (line : List Char)
        (pre post : List (List Char)),
        trimL line ≠ [] → (parseLineL line).length ≠ hc →
        parseCSVLoop hm hc (pre ++ line :: post) =
          parseCSVLoop hm hc (pre ++ post))
    ∧ (∀ (hm : List (Option Role)) (hc : Nat) (lines : List (List Char)),
        (∃ line ∈ lines, trimL line ≠ [] ∧ (parseLineL line).length ≠ hc) →
        (parseCSVLoop hm hc lines).length ≤ lines.length - 1) := by
  refine ⟨buildRecord_count_mismatch, ?_, ?_⟩
  · intro hm hc line pre post hb hcnt
    exact parseCSVLoop_append_skip hm hc line hb hcnt pre post
  · rintro hm hc lines ⟨line, hmem, hb, hcnt⟩
    obtain ⟨pre, post, rfl⟩ := List.append_of_mem hmem
    rw [parseCSVLoop_append_skip hm hc line hb hcnt pre post]
    have hle := parseCSVLoop_length_le hm hc (pre ++ post)
    simp only [List.length_append, List.length_cons] at hle ⊢
    omega

/-- Witness for C4: a two-line batch whose first line has two fields
against a one-column header yields at most one record. -/
theorem claim_C4_column_mismatch_witness :
    (parseCSVLoop [some Role.q] 1 ["a,b".toList, "c".toList]).length ≤ 2 - 1 :=
  claim_C4_column_mismatch.2.2 [some Role.q] 1 ["a,b".toList, "c".toList]
    ⟨"a,b".toList, by decide, by decide, by decide⟩

/-! ### C10: empty unquoted fields -/

theorem mem_dropWhile_subset (p : Char → Bool) :
    ∀ (l : List Char) (x : Char), x ∈ l.dropWhile p → x ∈ l := by
  intro l
  induction l with
  | nil =>
    intro x h
    simp at h
  | cons c rest ih =>
    intro x h
    by_cases hp : p c
    · rw [List.dropWhile_cons_of_pos hp] at h
      exact List.mem_cons_of_mem c (ih x h)
    · rw [List.dropWhile_cons_of_neg hp] at h
      exact h

theorem dropWhile_head_false (p : Char → Bool) :
    ∀ (l : List Char) (d : Char) (tl : List Char),
      l.dropWhile p = d :: tl → p d = false := by
  intro l
  induction l with
  | nil =>
    intro d tl h
    simp at h
  | cons c rest ih =>
    intro d tl h
    by_cases hp : p c
    · rw [List.dropWhile_cons_of_pos hp] at h
      exact ih d tl h
    · rw [List.dropWhile_cons_of_neg hp] at h
      injection h with h1 h2
      subst h1
      simpa using hp

theorem splitComma_eq_takeWhile (cs : List Char) :
    splitComma cs =
      cs.takeWhile (fun x => x != ',') ::
        (if cs.dropWhile (fun x => x != ',') = [] then []
         else splitComma ((cs.dropWhile (fun x => x != ',')).tail)) := by
  induction cs with
  | nil => simp [splitComma]
  | cons c rest ih =>
    by_cases hc : c = ','
    · subst hc
      rw [show splitComma (',' :: rest) = [] :: splitComma rest from by
        simp [splitComma]]
      simp [List.takeWhile_cons, List.dropWhile_cons]
    · have hp : (c != ',') = true := by simpa using hc
      rw [show splitComma (c :: rest) =
          (c :: (splitComma rest).headD []) :: (splitComma rest).tail from by
        simp [splitComma, hc]]
      simp only [List.takeWhile_cons, List.dropWhile_cons, hp, if_true]
      rw [ih]
      simp

theorem quoteFree_parseLineAux :
    ∀ (n : Nat) (line : List Char), line.length ≤ n → ('"' ∉ line) →
      parseLineL line =
        ((splitComma line).filter (fun f => f ≠ [])).map trimL := by
  intro n
  induction n with
  | zero =>
    intro line hl _
    have hnil : line = [] := List.eq_nil_of_length_eq_zero (by omega)
    subst hnil
    rfl
  | succ n ih =>
    intro line hl hq
    cases line with
    | nil => rfl
    | cons c rest =>
      have hcq : c ≠ '"' := by
        intro h
        exact hq (h ▸ List.mem_cons_self c rest)
      have hrq : '"' ∉ rest := fun h => hq (List.mem_cons_of_mem c h)
      have hrl : rest.length ≤ n := by
        simp only [List.length_cons] at hl
        omega
      by_cases hc : c = ','
      · subst hc
        show (tokenize (',' :: rest)).map processTok = _
        rw [tokenize_cons_comma]
        rw [show splitComma (',' :: rest) = [] :: splitComma rest from by
          simp [splitComma]]
        rw [List.filter_cons, if_neg (by simp)]
        exact ih rest hrl hrq
      · have hp : (c != ',') = true := by simpa using hc
        show (tokenize (c :: rest)).map processTok = _
        rw [tokenize_cons_run hcq hc]
        rw [List.map_cons]
        have hrun : processTok ((c :: rest).takeWhile (fun x => x != ',')) =
            trimL ((c :: rest).takeWhile (fun x => x != ',')) := by
          simp only [List.takeWhile_cons, hp, if_true]
          unfold processTok
          rw [if_neg]
          intro hcon
          have := hcon.1
          simp only [List.head?_cons, Option.some.injEq] at this
          exact hcq this
        rw [hrun]
        rw [splitComma_eq_takeWhile (c :: rest)]
        rw [List.filter_cons, if_pos (by
          simp only [List.takeWhile_cons, hp, if_true]
          simp)]
        rw [List.map_cons]
        congr 1
        cases h2 : (c :: rest).dropWhile (fun x => x != ',') with
        | nil =>
          simp [tokenize_nil]
        | cons d tl =>
          have hd : (fun x => x != ',') d = false :=
            dropWhile_head_false _ (c :: rest) d tl h2
          have hd2 : d = ',' := by simpa using hd
          subst hd2
          rw [if_neg (by simp)]
          simp only [List.tail_cons]
          have htl_len : tl.length ≤ n := by
            have hdw : ((c :: rest).dropWhile (fun x => x != ',')).length
                ≤ rest.length := by
              simp only [List.dropWhile_cons, hp, if_true]
              exact length_dropWhile_le _ rest
            rw [h2] at hdw
            simp only [List.length_cons] at hdw
            omega
          have htl_q : '"' ∉ tl := by
            intro hmem
            apply hq
            apply mem_dropWhile_subset (fun x => x != ',') (c :: rest)
            rw [h2]
            exact List.mem_cons_of_mem ',' hmem
          show (tokenize (',' :: tl)).map processTok = _
          rw [tokenize_cons_comma]
          exact ih tl htl_len htl_q

/-- C10 counterexample: take the four-column header
`question,option a,option b,correct answer` and the data row whose four
comma-separated positions are a quoted What followed by a stray x, a
quoted Paris, a quoted Rome, and a trailing empty unquoted field.  The
row ends in an empty unquoted field and has exactly as many
comma-separated positions as the header, yet it tokenizes to four fields
(not fewer), passes the column-count check, and the import as a whole
accepts it as a record. -/
theorem claim_C10_counterexample :
    ([] ∈ splitComma "\"What\"x,\"Paris\",\"Rome\",".toList) ∧
    (splitComma "\"What\"x,\"Paris\",\"Rome\",".toList).length =
      (splitComma "question,option a,option b,correct answer".toList).length ∧
    ¬ ((parseLineL "\"What\"x,\"Paris\",\"Rome\",".toList).length <
      (splitComma "question,option a,option b,correct answer".toList).length) ∧
    (parseCSV
      "question,option a,option b,correct answer\n\"What\"x,\"Paris\",\"Rome\",").length
      = 1 := by
  refine ⟨by decide, by decide, by decide, by decide⟩

/-- C10 (amended): the tokenizer never produces a token for an empty
unquoted field — on a line without double quotes it returns exactly the
trimmed non-empty comma-separated fields — and consequently a quote-free
data row containing at least one empty field and having exactly as many
comma-separated positions as the header tokenizes to fewer fields than
the header's column count (and is therefore skipped by the column-count
check); rows containing double quotes can evade this, as the
counterexample shows. -/
theorem claim_C10_amended :
    (∀ line : List Char, '"' ∉ line →
      parseLineL line = ((splitComma line).filter (fun f => f ≠ [])).map trimL)
    ∧ (∀ (line : List Char) (hc : Nat), '"' ∉ line →
        [] ∈ splitComma line → (splitComma line).length = hc →
        (parseLineL line).length < hc) := by
  constructor
  · intro line hq
    exact quoteFree_parseLineAux line.length line (Nat.le_refl _) hq
  · intro line hc hq hmem hlen
    rw [quoteFree_parseLineAux line.length line (Nat.le_refl _) hq]
    rw [List.length_map]
    rw [← hlen]
    apply List.length_filter_lt_length_iff_exists.mpr
    exact ⟨[], hmem, by simp⟩

/-- Witness for C10 (amended): the quote-free row `a,,b` against a
three-column header tokenizes to fewer than three fields. -/
theorem claim_C10_amended_witness :
    (parseLineL "a,,b".toList).length < 3 :=
  claim_C10_amended.2 "a,,b".toList 3 (by decide) (by decide) (by decide)

/-! ### C5: score computation -/

theorem foldl_scoreStep (qs : List SessionQuestion) (rs : RespMap) :
    ∀ (a c : Nat) (inc : List SessionQuestion),
      rs.foldl (scoreStep qs) (a, c, inc) =
        (a + rs.countP (fun p => respAttempted p.2),
         c + rs.countP (fun p => respAttempted p.2 && p.2.isCorrect),
         inc ++ rs.filterMap (fun p =>
           if respAttempted p.2 && !p.2.isCorrect then qs.get? p.1 else none)) := by
  induction rs with
  | nil => simp
  | cons p rs ih =>
    intro a c inc
    rw [List.foldl_cons, ih]
    unfold scoreStep
    by_cases h1 : respAttempted p.2
    · by_cases h2 : p.2.isCorrect
      · rw [if_pos h1, if_pos h2]
        simp [List.countP_cons, List.filterMap_cons, h1, h2, Prod.ext_iff]
        omega
      · rw [if_pos h1, if_neg h2]
        have h2f : p.2.isCorrect = false := by
          simpa using h2
        cases hg : qs.get? p.1 with
        | some orig =>
          rw [List.get?_eq_getElem?] at hg
          simp [List.countP_cons, List.filterMap_cons, h1, h2f, hg,
            Prod.ext_iff, List.append_assoc]
          omega
        | none =>
          rw [List.get?_eq_getElem?] at hg
          simp [List.countP_cons, List.filterMap_cons, h1, h2f, hg,
            Prod.ext_iff, List.append_assoc]
          omega
    · rw [if_neg h1]
      have h1f : respAttempted p.2 = false := by
        simpa using h1
      simp [List.countP_cons, List.filterMap_cons, h1f, Prod.ext_iff]

theorem filterMap_if_eq_filter (g : Nat × ResponseEntry → Bool)
    (f : Nat × ResponseEntry → Option SessionQuestion) (rs : RespMap) :
    rs.filterMap (fun p => if g p then f p else none) =
      (rs.filter g).filterMap f := by
  induction rs with
  | nil => simp
  | cons p rs ih =>
    by_cases hg : g p
    · simp [List.filterMap_cons, List.filter_cons, hg, ih]
    · have hgf : g p = false := by simpa using hg
      simp [List.filterMap_cons, List.filter_cons, hgf, ih]

theorem length_filterMap_of_isSome
    (f : Nat × ResponseEntry → Option SessionQuestion)
    (l : List (Nat × ResponseEntry)) (h : ∀ x ∈ l, (f x).isSome) :
    (l.filterMap f).length = l.length := by
  induction l with
  | nil => rfl
  | cons p rest ih =>
    obtain ⟨b, hb⟩ := Option.isSome_iff_exists.mp (h p (List.mem_cons_self p rest))
    rw [List.filterMap_cons, hb]
    simp only [List.length_cons]
    rw [ih (fun x hx => h x (List.mem_cons_of_mem p hx))]

/-- A session state with ten questions, six attempted, four correct, used
by the spec example. -/
def exQs : List SessionQuestion :=
  (List.range 10).map
    (fun i => ⟨⟨"Q" ++ toString i, ["x", "y"], "x", none⟩, toString i⟩)

/-- Responses for the example: indices 0-3 answered correctly, 4-5
answered wrongly, 6 interacted with but not answered. -/
def exRs : RespMap :=
  [(0, ⟨some "x", true, false⟩), (1, ⟨some "x", true, false⟩),
   (2, ⟨some "x", true, false⟩), (3, ⟨some "x", true, false⟩),
   (4, ⟨some "y", false, false⟩), (5, ⟨some "y", false, true⟩),
   (6, ⟨none, false, true⟩)]

/-- C5: `calculateScore` counts as attempted the entries with a non-empty
selection, counts as correct the attempted entries marked correct, lists
as incorrect exactly the session records at attempted-but-wrong indices
in ascending index order, sets unanswered to total minus attempted, and
sets accuracy to round(100*correct/attempted) with an explicit zero guard
for zero attempts; on the 10-question example with 6 attempted and 4
correct it returns attempted 6, correct 4, unanswered 4, accuracy 67. -/
theorem claim_C5_score :
    (∀ (qs : List SessionQuestion) (rs : RespMap),
      keysSorted rs → (∀ p ∈ rs, p.1 < qs.length) →
      ((calculateScore qs rs).attempted =
          rs.countP (fun p => respAttempted p.2) ∧
        (calculateScore qs rs).finalScore =
          rs.countP (fun p => respAttempted p.2 && p.2.isCorrect) ∧
        (calculateScore qs rs).incorrects =
          (rs.filter (fun p => respAttempted p.2 && !p.2.isCorrect)).filterMap
            (fun p => qs.get? p.1) ∧
        (calculateScore qs rs).incorrects.length =
          rs.countP (fun p => respAttempted p.2 && !p.2.isCorrect) ∧
        List.Pairwise (fun i j => i < j)
          ((rs.filter (fun p => respAttempted p.2 && !p.2.isCorrect)).map
            Prod.fst) ∧
        (calculateScore qs rs).unanswered =
          qs.length - (calculateScore qs rs).attempted ∧
        (calculateScore qs rs).accuracy =
          (if 0 < (calculateScore qs rs).attempted then
            jsRound ((100 * ((calculateScore qs rs).finalScore : ℚ)) /
              ((calculateScore qs rs).attempted : ℚ))
           else 0)))
    ∧ calculateScore exQs exRs =
        ⟨4, 6, 10,
         [⟨⟨"Q4", ["x", "y"], "x", none⟩, "4"⟩,
          ⟨⟨"Q5", ["x", "y"], "x", none⟩, "5"⟩], 4, 67⟩ := by
  constructor
  · intro qs rs hsorted hrange
    have hf := foldl_scoreStep qs rs 0 0 []
    simp only [Nat.zero_add, List.nil_append] at hf
    have hattempted : (calculateScore qs rs).attempted =
        rs.countP (fun p => respAttempted p.2) := by
      simp only [calculateScore, hf]
    have hfinal : (calculateScore qs rs).finalScore =
        rs.countP (fun p => respAttempted p.2 && p.2.isCorrect) := by
      simp only [calculateScore, hf]
    have hinc : (calculateScore qs rs).incorrects =
        (rs.filter (fun p => respAttempted p.2 && !p.2.isCorrect)).filterMap
          (fun p => qs.get? p.1) := by
      simp only [calculateScore, hf]
      exact filterMap_if_eq_filter _ _ rs
    refine ⟨hattempted, hfinal, hinc, ?_, ?_, ?_, ?_⟩
    · have hsome : ∀ x ∈ rs.filter
          (fun p => respAttempted p.2 && !p.2.isCorrect),
          ((fun p => qs.get? p.1) x).isSome := by
        intro x hx
        have hlt := hrange x (List.mem_filter.mp hx).1
        exact Option.isSome_iff_exists.mpr
          ⟨qs.get ⟨x.1, hlt⟩, List.get?_eq_get hlt⟩
      rw [hinc, length_filterMap_of_isSome _ _ hsome]
      exact (List.countP_eq_length_filter _ _).symm
    · rw [List.pairwise_map]
      exact (hsorted.filter _)
    · simp only [calculateScore, hf]
    · simp only [calculateScore, hf]
      by_cases hpos : 0 < rs.countP (fun p => respAttempted p.2)
      · rw [if_pos hpos, if_pos hpos]
        unfold jsRound
        rw [div_mul_eq_mul_div, mul_comm]
      · rw [if_neg hpos, if_neg hpos]
  · have hf : exRs.foldl (scoreStep exQs) (0, 0, []) =
        (6, 4,
         [⟨⟨"Q4", ["x", "y"], "x", none⟩, "4"⟩,
          ⟨⟨"Q5", ["x", "y"], "x", none⟩, "5"⟩]) := by
      decide
    simp only [calculateScore, hf]
    rw [ScoreResult.mk.injEq]
    refine ⟨rfl, rfl, by decide, rfl, by decide, ?_⟩
    rw [if_pos (by norm_num)]
    unfold jsRound
    apply Int.floor_eq_iff.mpr
    constructor <;> push_cast <;> norm_num

/-- Witness for C5: the general clauses applied to the example state. -/
theorem claim_C5_score_witness :
    (calculateScore exQs exRs).attempted =
        exRs.countP (fun p => respAttempted p.2) ∧
      (calculateScore exQs exRs).finalScore =
        exRs.countP (fun p => respAttempted p.2 && p.2.isCorrect) ∧
      (calculateScore exQs exRs).incorrects =
        (exRs.filter (fun p => respAttempted p.2 && !p.2.isCorrect)).filterMap
          (fun p => exQs.get? p.1) ∧
      (calculateScore exQs exRs).incorrects.length =
        exRs.countP (fun p => respAttempted p.2 && !p.2.isCorrect) ∧
      List.Pairwise (fun i j => i < j)
        ((exRs.filter (fun p => respAttempted p.2 && !p.2.isCorrect)).map
          Prod.fst) ∧
      (calculateScore exQs exRs).unanswered =
        exQs.length - (calculateScore exQs exRs).attempted ∧
      (calculateScore exQs exRs).accuracy =
        (if 0 < (calculateScore exQs exRs).attempted then
          jsRound ((100 * ((calculateScore exQs exRs).finalScore : ℚ)) /
            ((calculateScore exQs exRs).attempted : ℚ))
         else 0) :=
  claim_C5_score.1 exQs exRs (by decide) (by decide)

/-! ### C6: navigation and explanation visibility -/

/-- The entry the program effectively reads at an index: the stored entry,
or the all-absent entry when none is stored. -/
def effResp (m : RespMap) (k : Nat) : ResponseEntry :=
  (getResp m k).getD ⟨none, false, false⟩

theorem getResp_none_of_forall (m : RespMap) (j : Nat)
    (h : ∀ q ∈ m, q.1 ≠ j) : getResp m j = none := by
  induction m with
  | nil => rfl
  | cons p rest ih =>
    have hj : j ≠ p.1 := fun he => h p (List.mem_cons_self p rest) he.symm
    cases p with
    | mk k2 v =>
      show (if j = k2 then some v else getResp rest j) = none
      rw [if_neg hj]
      exact ih (fun q hq => h q (List.mem_cons_of_mem _ hq))

theorem getResp_setResp (m : RespMap) (hs : keysSorted m) (k j : Nat)
    (f : Option ResponseEntry → ResponseEntry) :
    getResp (setResp m k f) j =
      (if j = k then some (f (getResp m k)) else getResp m j) := by
  induction m with
  | nil =>
    show getResp [(k, f none)] j = _
    show (if j = k then some (f none) else getResp [] j) = _
    rfl
  | cons p rest ih =>
    cases p with
    | mk k2 v =>
      have hs2 : keysSorted rest := hs.tail
      have hall : ∀ q ∈ rest, k2 < q.1 := by
        intro q hq
        exact (List.pairwise_cons.mp hs).1 q hq
      by_cases hk : k = k2
      · subst hk
        rw [show setResp ((k, v) :: rest) k f = (k, f (some v)) :: rest from by
          unfold setResp
          rw [if_pos rfl]]
        show (if j = k then some (f (some v)) else getResp rest j) = _
        by_cases hj : j = k
        · rw [if_pos hj, if_pos hj]
          show _ = some (f (if k = k then some v else getResp rest k))
          rw [if_pos rfl]
        · rw [if_neg hj, if_neg hj]
          show getResp rest j = (if j = k then some v else getResp rest j)
          rw [if_neg hj]
      · by_cases hlt : k < k2
        · rw [show setResp ((k2, v) :: rest) k f =
              (k, f none) :: (k2, v) :: rest from by
            show (if k = k2 then _ else if k < k2 then _ else _) = _
            rw [if_neg hk, if_pos hlt]]
          show (if j = k then some (f none) else getResp ((k2, v) :: rest) j) = _
          by_cases hj : j = k
          · rw [if_pos hj, if_pos hj]
            have hnone : getResp ((k2, v) :: rest) k = none := by
              apply getResp_none_of_forall
              intro q hq
              rcases List.mem_cons.mp hq with h1 | h1
              · rw [h1]
                omega
              · have := hall q h1
                omega
            rw [hnone]
          · rw [if_neg hj, if_neg hj]
        · have hgt : k2 < k := by omega
          rw [show setResp ((k2, v) :: rest) k f =
              (k2, v) :: setResp rest k f from by
            show (if k = k2 then _ else if k < k2 then _ else _) = _
            rw [if_neg hk, if_neg (by omega)]]
          show (if j = k2 then some v else getResp (setResp rest k f) j) = _
          by_cases hj2 : j = k2
          · rw [if_pos hj2, if_neg (by omega)]
            show _ = (if j = k2 then some v else getResp rest j)
            rw [if_pos hj2]
          · rw [if_neg hj2, ih hs2]
            show _ = (if j = k then some (f (getResp ((k2, v) :: rest) k))
              else getResp ((k2, v) :: rest) j)
            show _ = (if j = k then
                some (f (if k = k2 then some v else getResp rest k))
              else getResp ((k2, v) :: rest) j)
            rw [if_neg hk]
            by_cases hj : j = k
            · rw [if_pos hj, if_pos hj]
            · rw [if_neg hj, if_neg hj]
              show getResp rest j = (if j = k2 then some v else getResp rest j)
              rw [if_neg hj2]

/-- C6: in Practice, sequential Previous/Next navigation moves the index
and clears the destination entry's explanation-visible flag while leaving
its selection and correctness and every other index's entry unchanged; an
explicit jump-to-index leaves the whole response map (hence every
explanation-visible flag) unchanged. -/
theorem claim_C6_visibility_reset :
    (∀ s : AppState, s.quizState = QuizState.PRACTICE →
      keysSorted s.userResponses → 0 < s.currentQuestionIndex →
      ((handlePrevious s).currentQuestionIndex = s.currentQuestionIndex - 1 ∧
       (effResp (handlePrevious s).userResponses
         (s.currentQuestionIndex - 1)).isExplanationVisible = false ∧
       (effResp (handlePrevious s).userResponses
         (s.currentQuestionIndex - 1)).selectedOption =
         (effResp s.userResponses (s.currentQuestionIndex - 1)).selectedOption ∧
       (effResp (handlePrevious s).userResponses
         (s.currentQuestionIndex - 1)).isCorrect =
         (effResp s.userResponses (s.currentQuestionIndex - 1)).isCorrect ∧
       (∀ j, j ≠ s.currentQuestionIndex - 1 →
         getResp (handlePrevious s).userResponses j =
           getResp s.userResponses j)))
    ∧ (∀ s : AppState, s.quizState = QuizState.PRACTICE →
        keysSorted s.userResponses →
        s.currentQuestionIndex + 1 ≠ s.currentQuestions.length →
        ((handleNext s).currentQuestionIndex = s.currentQuestionIndex + 1 ∧
         (effResp (handleNext s).userResponses
           (s.currentQuestionIndex + 1)).isExplanationVisible = false ∧
         (effResp (handleNext s).userResponses
           (s.currentQuestionIndex + 1)).selectedOption =
           (effResp s.userResponses (s.currentQuestionIndex + 1)).selectedOption ∧
         (effResp (handleNext s).userResponses
           (s.currentQuestionIndex + 1)).isCorrect =
           (effResp s.userResponses (s.currentQuestionIndex + 1)).isCorrect ∧
         (∀ j, j ≠ s.currentQuestionIndex + 1 →
           getResp (handleNext s).userResponses j =
             getResp s.userResponses j)))
    ∧ (∀ (s : AppState) (i : Nat),
        (handleJumpTo s i).userResponses = s.userResponses ∧
        (handleJumpTo s i).currentQuestionIndex = i ∧
        (handleJumpTo s i).isDrawerOpen = false) := by
  refine ⟨?_, ?_, ?_⟩
  · intro s _hp hsort hpos
    have hprev : handlePrevious s = { s with
        userResponses := setResp s.userResponses (s.currentQuestionIndex - 1)
          (fun old => { old.getD ⟨none, false, false⟩ with
            isExplanationVisible := false }),
        currentQuestionIndex := s.currentQuestionIndex - 1 } := by
      unfold handlePrevious
      rw [if_pos hpos]
    rw [hprev]
    have hget := getResp_setResp s.userResponses hsort
      (s.currentQuestionIndex - 1)
    refine ⟨rfl, ?_, ?_, ?_, ?_⟩
    · unfold effResp
      rw [hget _ _, if_pos rfl]
      rfl
    · unfold effResp
      rw [hget _ _, if_pos rfl]
      rfl
    · unfold effResp
      rw [hget _ _, if_pos rfl]
      rfl
    · intro j hj
      rw [hget _ _, if_neg hj]
  · intro s _hp hsort hlast
    have hnext : handleNext s = { s with
        userResponses := setResp s.userResponses (s.currentQuestionIndex + 1)
          (fun old => { old.getD ⟨none, false, false⟩ with
            isExplanationVisible := false }),
        currentQuestionIndex := s.currentQuestionIndex + 1 } := by
      unfold handleNext
      rw [if_neg hlast]
    rw [hnext]
    have hget := getResp_setResp s.userResponses hsort
      (s.currentQuestionIndex + 1)
    refine ⟨rfl, ?_, ?_, ?_, ?_⟩
    · unfold effResp
      rw [hget _ _, if_pos rfl]
      rfl
    · unfold effResp
      rw [hget _ _, if_pos rfl]
      rfl
    · unfold effResp
      rw [hget _ _, if_pos rfl]
      rfl
    · intro j hj
      rw [hget _ _, if_neg hj]
  · intro s i
    exact ⟨rfl, rfl, rfl⟩

/-- A concrete practice state used by the navigation witnesses. -/
def exStateC6 : AppState :=
  ⟨[], QuizState.PRACTICE, "", "", none, exQs, 2, exRs, false, ""⟩

/-- Witness for C6: previous navigation from index 2 of the example state
moves to index 1, clears its visibility flag, and leaves index 5
untouched. -/
theorem claim_C6_visibility_reset_witness :
    (handlePrevious exStateC6).currentQuestionIndex = 1 ∧
    (effResp (handlePrevious exStateC6).userResponses 1).isExplanationVisible
      = false ∧
    getResp (handlePrevious exStateC6).userResponses 5 =
      getResp exStateC6.userResponses 5 := by
  have h := claim_C6_visibility_reset.1 exStateC6 rfl (by decide) (by decide)
  exact ⟨h.1, h.2.1, h.2.2.2.2 5 (by decide)⟩

/-! ### C7: navigation transitions and bounds -/

/-- C7: in Practice, Previous at index 0 abandons the session and returns
to topic selection with the index unchanged, Next at the last index
finalizes to the summary, and at every other index Previous decrements
and Next increments the index, preserving `0 ≤ index < length`. -/
theorem claim_C7_navigation_transitions :
    (∀ s : AppState, s.quizState = QuizState.PRACTICE →
      s.currentQuestionIndex = 0 →
      handlePrevious s = { s with quizState := QuizState.TOPIC_SELECT })
    ∧ (∀ s : AppState, s.quizState = QuizState.PRACTICE →
        s.currentQuestionIndex + 1 = s.currentQuestions.length →
        handleNext s = { s with quizState := QuizState.SUMMARY })
    ∧ (∀ s : AppState, 0 < s.currentQuestionIndex →
        (handlePrevious s).currentQuestionIndex = s.currentQuestionIndex - 1 ∧
        (handlePrevious s).quizState = s.quizState ∧
        (handlePrevious s).currentQuestions = s.currentQuestions)
    ∧ (∀ s : AppState, s.currentQuestionIndex + 1 ≠ s.currentQuestions.length →
        (handleNext s).currentQuestionIndex = s.currentQuestionIndex + 1 ∧
        (handleNext s).quizState = s.quizState ∧
        (handleNext s).currentQuestions = s.currentQuestions)
    ∧ (∀ s : AppState, 0 < s.currentQuestionIndex →
        s.currentQuestionIndex < s.currentQuestions.length →
        (handlePrevious s).currentQuestionIndex <
          (handlePrevious s).currentQuestions.length)
    ∧ (∀ s : AppState, s.currentQuestionIndex < s.currentQuestions.length →
        s.currentQuestionIndex + 1 ≠ s.currentQuestions.length →
        (handleNext s).currentQuestionIndex <
          (handleNext s).currentQuestions.length) := by
  refine ⟨?_, ?_, ?_, ?_, ?_, ?_⟩
  · intro s _hp h0
    unfold handlePrevious
    rw [if_neg (by omega)]
  · intro s _hp hlast
    unfold handleNext
    rw [if_pos hlast]
  · intro s hpos
    unfold handlePrevious
    rw [if_pos hpos]
    exact ⟨rfl, rfl, rfl⟩
  · intro s hlast
    unfold handleNext
    rw [if_neg hlast]
    exact ⟨rfl, rfl, rfl⟩
  · intro s hpos hlt
    unfold handlePrevious
    rw [if_pos hpos]
    show s.currentQuestionIndex - 1 < s.currentQuestions.length
    omega
  · intro s hlt hlast
    unfold handleNext
    rw [if_neg hlast]
    show s.currentQuestionIndex + 1 < s.currentQuestions.length
    omega

/-- A three-question practice state at index 0, for the C7 witness. -/
def exStateC7 : AppState :=
  ⟨[], QuizState.PRACTICE, "", "", none, exQs.take 3, 0, [], false, ""⟩

/-- Witness for C7: in a 3-question session, Previous at index 0 abandons
to topic selection, and Next at the last index reaches the summary. -/
theorem claim_C7_navigation_transitions_witness :
    handlePrevious exStateC7 =
      { exStateC7 with quizState := QuizState.TOPIC_SELECT } ∧
    handleNext { exStateC7 with currentQuestionIndex := 2 } =
      { exStateC7 with
          currentQuestionIndex := 2
          quizState := QuizState.SUMMARY } := by
  constructor
  · exact claim_C7_navigation_transitions.1 exStateC7 rfl rfl
  · exact claim_C7_navigation_transitions.2.1 _ rfl (by decide)

/-! ### C8: starting a practice session -/

/-- C8: starting a session with a missing or empty question list only
surfaces a diagnostic message and preserves every other part of the
state; a non-empty list enters Practice with per-session ids assigned,
the index reset to 0 and the responses cleared. -/
theorem claim_C8_startPractice :
    (∀ (s : AppState) (now : Nat),
      startPractice none now s = { s with message := "No questions to practice." } ∧
      startPractice (some []) now s =
        { s with message := "No questions to practice." })
    ∧ (∀ (s : AppState) (now : Nat) (qs : List Question), qs ≠ [] →
        startPractice (some qs) now s =
          { s with
            currentQuestions := qs.enum.map
              (fun p => SessionQuestion.mk p.2
                (toString p.1 ++ "-" ++ toString now)),
            currentQuestionIndex := 0,
            userResponses := [],
            quizState := QuizState.PRACTICE,
            isDrawerOpen := false }) := by
  constructor
  · intro s now
    exact ⟨rfl, rfl⟩
  · intro s now qs hne
    cases qs with
    | nil => exact absurd rfl hne
    | cons q rest => rfl

/-- Witness for C8: starting with one question from the example state. -/
theorem claim_C8_startPractice_witness :
    startPractice (some [recLetterB]) 7 exStateC7 =
      { exStateC7 with
        currentQuestions := [recLetterB].enum.map
          (fun p => SessionQuestion.mk p.2 (toString p.1 ++ "-" ++ toString 7)),
        currentQuestionIndex := 0,
        userResponses := [],
        quizState := QuizState.PRACTICE,
        isDrawerOpen := false } :=
  claim_C8_startPractice.2 exStateC7 7 [recLetterB] (by decide)

/-! ### C9: duplicate topic names -/

/-- The empty initial component state. -/
def emptyState : AppState :=
  ⟨[], QuizState.TOPIC_SELECT, "", "", none, [], 0, [], false, ""⟩

/-- A well-formed CSV payload used by the import example. -/
def exCsv : String :=
  "question,option a,option b,correct answer\nWhat,Paris,Rome,B"

/-- C9: an import whose (trimmed) topic name collides case-insensitively
with an existing topic fails with the duplicate-name message and leaves
the topic store (and the rest of the state except the message) unchanged;
after importing Math into an empty store, a second import under any case
variant of the name leaves the store with exactly the one Math topic. -/
theorem claim_C9_duplicate_topic :
    (∀ (s : AppState) (now : Nat),
      jsTrim s.csvContent ≠ "" → jsTrim s.newTopicName ≠ "" →
      (parseCSV s.csvContent).length ≠ 0 →
      (s.topics.any (fun t =>
        jsToLower t.topicName == jsToLower (jsTrim s.newTopicName))) = true →
      handleImport now s =
        { s with message := "Topic with this name already exists." })
    ∧ (∀ (v : String) (t0 t1 : Nat), jsToLower (jsTrim v) = "math" →
        ((handleImport t1
            { (handleImport t0
                { emptyState with csvContent := exCsv, newTopicName := "Math" })
              with csvContent := exCsv, newTopicName := v }).topics =
          (handleImport t0
            { emptyState with
                csvContent := exCsv
                newTopicName := "Math" }).topics ∧
         (handleImport t0
            { emptyState with
                csvContent := exCsv
                newTopicName := "Math" }).topics.map Topic.topicName =
          ["Math"])) := by
  constructor
  · intro s now h1 h2 h3 h4
    unfold handleImport
    rw [if_neg h1, if_neg h2, if_neg h3, if_pos h4]
  · intro v t0 t1 hv
    have hs1 : (handleImport t0
        { emptyState with csvContent := exCsv, newTopicName := "Math" }) =
        { emptyState with
          topics := [⟨"topic-" ++ toString t0, "Math", parseCSV exCsv⟩],
          csvContent := "", newTopicName := "", fileName := none,
          message := "Saved Math (" ++ toString (parseCSV exCsv).length
            ++ " questions)" } := by
      unfold handleImport
      rw [if_neg (by decide), if_neg (by decide), if_neg (by decide),
        if_neg (by decide)]
      rfl
    rw [hs1]
    have hvne : jsTrim v ≠ "" := by
      intro h
      rw [h] at hv
      exact absurd hv (by decide)
    constructor
    · unfold handleImport
      rw [if_neg (show ¬(jsTrim exCsv = "") from by decide), if_neg hvne,
        if_neg (show ¬((parseCSV exCsv).length = 0) from by decide)]
      rw [if_pos (by
        simp only [List.any_cons, List.any_nil, Bool.or_false]
        rw [hv]
        decide)]
    · rfl

/-- Witness for C9: the duplicate-rejection clause applied to a state
whose store already holds a Math topic. -/
theorem claim_C9_duplicate_topic_witness :
    handleImport 9
      { emptyState with
        topics := [⟨"topic-1", "Math", [recLetterB]⟩],
        csvContent := exCsv, newTopicName := " MATH " } =
      { emptyState with
        topics := [⟨"topic-1", "Math", [recLetterB]⟩],
        csvContent := exCsv, newTopicName := " MATH ",
        message := "Topic with this name already exists." } :=
  claim_C9_duplicate_topic.1 _ 9 (by decide) (by decide) (by decide) (by decide)

end GateMcq
